import Mathlib

/-!
Shallow embedding of the formula-hub backend (src/server.js, first file variant,
which is the one the line references of the claims point at).

The server stores three SQLite tables (submitted_content, formulas, problems)
and exposes JSON endpoints.  Composite fields (variables, connections,
examples, formulaKeys, schema) are stored as TEXT holding JSON.stringify
output and are read back with JSON.parse.  We model JSON values with `Json`
(numbers as integers, which is the only simplification: JS numbers are IEEE
doubles), JSON.stringify with `stringifyJson`, and JSON.parse with
`parseJsonStr`, a real character-level parser, so that the round-trip claims
are genuine theorems about serialization followed by deserialization.
-/

namespace FormulaHub

/- JSON values.  A mutual inductive (array and object spines as their own
types) so that mutual recursion and induction stay structural. -/
mutual

inductive Json where
  | null : Json
  | bool (b : Bool) : Json
  | num (n : Int) : Json
  | str (s : String) : Json
  | arr (a : JsonArr) : Json
  | obj (o : JsonObj) : Json

inductive JsonArr where
  | nil : JsonArr
  | cons (hd : Json) (tl : JsonArr) : JsonArr

inductive JsonObj where
  | nil : JsonObj
  | cons (k : String) (v : Json) (tl : JsonObj) : JsonObj

end

/- Fuel lower bound for the parser on the printed form of a value. -/
mutual

def sizeJ : Json → Nat
  | .arr a => sizeA a + 1
  | .obj o => sizeO o + 1
  | _ => 1

def sizeA : JsonArr → Nat
  | .nil => 0
  | .cons h t => sizeJ h + sizeA t + 1

def sizeO : JsonObj → Nat
  | .nil => 0
  | .cons _ v t => sizeJ v + sizeO t + 1

end

/-- String escaping as done by JSON.stringify: quote, backslash and the
common control characters get a backslash escape; other characters are kept. -/
def escChar (c : Char) : List Char :=
  if c = '"' then ['\\', '"']
  else if c = '\\' then ['\\', '\\']
  else if c = '\n' then ['\\', 'n']
  else if c = '\t' then ['\\', 't']
  else if c = '\r' then ['\\', 'r']
  else [c]

def escape : List Char → List Char
  | [] => []
  | c :: cs => escChar c ++ escape cs

/-- Decimal digits of a natural number, most significant first. -/
def natDigits (n : Nat) : List Char :=
  if h : n < 10 then [Nat.digitChar n]
  else natDigits (n / 10) ++ [Nat.digitChar (n % 10)]
  termination_by n
  decreasing_by exact Nat.div_lt_self (by omega) (by omega)

/-- Decimal printing of an integer, as JSON.stringify prints integral numbers. -/
def printInt (n : Int) : List Char :=
  if n < 0 then '-' :: natDigits n.natAbs else natDigits n.toNat

/- JSON.stringify (no whitespace, exactly as the JS builtin emits it). -/
mutual

def printJson : Json → List Char
  | .num n => printInt n
  | .null => 'n' :: ['u', 'l', 'l']
  | .bool true => 't' :: ['r', 'u', 'e']
  | .bool false => 'f' :: ['a', 'l', 's', 'e']
  | .str s => '"' :: (escape s.data ++ ['"'])
  | .arr .nil => ['[', ']']
  | .arr (.cons h t) => '[' :: (printJson h ++ printArrTail t)
  | .obj .nil => ['{', '}']
  | .obj (.cons k v t) =>
      '{' :: ('"' :: (escape k.data ++ ['"'])) ++ (':' :: printJson v) ++ printObjTail t

def printArrTail : JsonArr → List Char
  | .nil => [']']
  | .cons h t => ',' :: (printJson h ++ printArrTail t)

def printObjTail : JsonObj → List Char
  | .nil => ['}']
  | .cons k v t =>
      ',' :: ('"' :: (escape k.data ++ ['"'])) ++ (':' :: printJson v) ++ printObjTail t

end

def stringifyJson (j : Json) : String := ⟨printJson j⟩

/-- Reverse of a single escape: the character named by the letter after a
backslash inside a string literal. -/
def unescChar (c : Char) : Option Char :=
  if c = '"' then some '"'
  else if c = '\\' then some '\\'
  else if c = 'n' then some '\n'
  else if c = 't' then some '\t'
  else if c = 'r' then some '\r'
  else none

/-- Scan a string literal body (after the opening quote), returning the
decoded string and the input after the closing quote. -/
def scanStr (acc : List Char) : List Char → Option (String × List Char)
  | [] => none
  | c :: rest =>
    if c = '"' then some (⟨acc.reverse⟩, rest)
    else if c = '\\' then
      match rest with
      | [] => none
      | e :: rest2 =>
        match unescChar e with
        | some c2 => scanStr (c2 :: acc) rest2
        | none => none
    else scanStr (c :: acc) rest

/-- Scan a run of decimal digits, accumulating their value. -/
def scanDigits (acc : Nat) : List Char → Nat × List Char
  | [] => (acc, [])
  | c :: rest =>
    if c.isDigit then scanDigits (acc * 10 + (c.toNat - 48)) rest
    else (acc, c :: rest)

/- Recursive-descent JSON parser (model of JSON.parse on stringify output;
no whitespace skipping since stringify emits none).  Returns the parsed value
and the remaining input.  Fuel bounds the recursion depth. -/
mutual

def parseVal : Nat → List Char → Option (Json × List Char)
  | 0, _ => none
  | _ + 1, [] => none
  | fuel + 1, c :: cs =>
    if c = 'n' then
      if cs.take 3 = ['u', 'l', 'l'] then some (.null, cs.drop 3) else none
    else if c = 't' then
      if cs.take 3 = ['r', 'u', 'e'] then some (.bool true, cs.drop 3) else none
    else if c = 'f' then
      if cs.take 4 = ['a', 'l', 's', 'e'] then some (.bool false, cs.drop 4) else none
    else if c = '"' then
      match scanStr [] cs with
      | some (s, r) => some (.str s, r)
      | none => none
    else if c = '[' then
      match cs with
      | [] => none
      | c2 :: cs2 =>
        if c2 = ']' then some (.arr .nil, cs2)
        else
          match parseVal fuel (c2 :: cs2) with
          | none => none
          | some (v, r) =>
            match parseArrTail fuel r with
            | none => none
            | some (t, r2) => some (.arr (.cons v t), r2)
    else if c = '{' then
      match cs with
      | [] => none
      | c2 :: cs2 =>
        if c2 = '}' then some (.obj .nil, cs2)
        else if c2 = '"' then
          match scanStr [] cs2 with
          | none => none
          | some (k, r) =>
            match r with
            | [] => none
            | c3 :: r2 =>
              if c3 = ':' then
                match parseVal fuel r2 with
                | none => none
                | some (v, r3) =>
                  match parseObjTail fuel r3 with
                  | none => none
                  | some (t, r4) => some (.obj (.cons k v t), r4)
              else none
        else none
    else if c = '-' then
      match cs with
      | [] => none
      | d :: ds =>
        if d.isDigit then
          let p := scanDigits (d.toNat - 48) ds
          some (.num (-(p.1 : Int)), p.2)
        else none
    else if c.isDigit then
      let p := scanDigits (c.toNat - 48) cs
      some (.num (p.1 : Int), p.2)
    else none

def parseArrTail : Nat → List Char → Option (JsonArr × List Char)
  | 0, [] => none
  | _ + 1, [] => none
  | 0, c :: cs => if c = ']' then some (.nil, cs) else none
  | f + 1, c :: cs =>
    if c = ']' then some (.nil, cs)
    else if c = ',' then
      match parseVal f cs with
      | none => none
      | some (v, r) =>
        match parseArrTail f r with
        | none => none
        | some (t, r2) => some (.cons v t, r2)
    else none

def parseObjTail : Nat → List Char → Option (JsonObj × List Char)
  | 0, [] => none
  | _ + 1, [] => none
  | 0, c :: cs => if c = '}' then some (.nil, cs) else none
  | f + 1, c :: cs =>
    if c = '}' then some (.nil, cs)
    else if c = ',' then
      match cs with
      | [] => none
      | c2 :: cs2 =>
        if c2 = '"' then
          match scanStr [] cs2 with
          | none => none
          | some (k, r) =>
            match r with
            | [] => none
            | c3 :: r2 =>
              if c3 = ':' then
                match parseVal f r2 with
                | none => none
                | some (v, r3) =>
                  match parseObjTail f r3 with
                  | none => none
                  | some (t, r4) => some (.cons k v t, r4)
              else none
        else none
    else none

end

/-- JSON.parse: parse a whole string as one JSON value. -/
def parseJsonStr (s : String) : Option Json :=
  match parseVal s.data.length s.data with
  | some (j, []) => some j
  | _ => none

/-! ## The record store

SQLite cells, the three tables, and the request/response shapes of the
endpoints, translated from src/server.js (first variant).  Request bodies are
typed at the JSON types the API documents for each field (strings for scalar
columns, a boolean for verified_by_ai, arbitrary JSON for composite fields);
`none` is an absent field, i.e. the JS value undefined. -/

/-- SQLite cell values, restricted to what the server ever binds:
NULL (from undefined/null), INTEGER (from booleans), TEXT (from strings). -/
inductive SqlValue where
  | null : SqlValue
  | int (n : Int) : SqlValue
  | text (s : String) : SqlValue
deriving DecidableEq

/-- JS truthiness of an optional string field: undefined and the empty
string are falsy, every other string is truthy. -/
def truthyStr : Option String → Bool
  | none => false
  | some s => s != ""

/-- JS truthiness of a JSON value (an integral number is falsy exactly when
it is zero; NaN does not arise for integers). -/
def truthyJson : Json → Bool
  | .null => false
  | .bool b => b
  | .num n => n != 0
  | .str s => s != ""
  | .arr _ => true
  | .obj _ => true

/-- node-sqlite3 binding of an optional string field: undefined binds NULL. -/
def bindStr : Option String → SqlValue
  | none => .null
  | some s => .text s

/-- node-sqlite3 binding of an optional boolean field: booleans bind as the
integers 1/0, undefined binds NULL. -/
def bindBool : Option Bool → SqlValue
  | none => .null
  | some b => .int (if b then 1 else 0)

/-- The composite-field write expression `x ? JSON.stringify(x) : null`
(server.js lines 202-204 and 269). -/
def stringifyCell : Option Json → Option String
  | none => none
  | some j => if truthyJson j then some (stringifyJson j) else none

/-- The composite-field read expression `x ? JSON.parse(x) : []` (server.js
lines 253-255 and 294): a NULL cell or empty string yields an empty array; a
nonempty string is parsed.  `none` models JSON.parse throwing. -/
def readComposite : Option String → Option Json
  | none => some (.arr .nil)
  | some s => if s = "" then some (.arr .nil) else parseJsonStr s

/-- What a write-then-read of a composite field yields: the value itself if
truthy, else the empty array. -/
def cellRead : Option Json → Json
  | none => .arr .nil
  | some j => if truthyJson j then j else .arr .nil

/-- Response envelope of the two save endpoints: HTTP status plus exactly
the body properties the handler sets. -/
structure SaveResp where
  status : Nat
  success : Bool
  error : Option String
  message : Option String
  id : Option Nat
deriving DecidableEq

/-! ### formulas table and its endpoints -/

/-- A row of the formulas table (server.js lines 37-52).  `timestamp` is a
logical clock standing for CURRENT_TIMESTAMP; composite columns hold TEXT or
NULL.  id and key are never NULL for rows the server writes, so they carry
their own types. -/
structure FormulaRow where
  id : Nat
  key : String
  category : SqlValue
  subject : SqlValue
  topic : SqlValue
  sub_topic : SqlValue
  formula : SqlValue
  description : SqlValue
  «variables» : Option String
  connections : Option String
  examples : Option String
  verified_by_ai : SqlValue
  custom_user : SqlValue
  timestamp : Nat
deriving DecidableEq

/-- The formulas table plus the AUTOINCREMENT counter and the clock. -/
structure FormulasState where
  rows : List FormulaRow
  nextId : Nat
  now : Nat
deriving DecidableEq

/-- Body of POST /api/save-formula (destructured at server.js lines 182-186). -/
structure SaveFormulaReq where
  key : Option String
  category : Option String
  subject : Option String
  topic : Option String
  sub_topic : Option String
  formula : Option String
  description : Option String
  «variables» : Option Json
  connections : Option Json
  examples : Option Json
  verified_by_ai : Option Bool
  custom_user : Option String

/-- The column values written for a request: the INSERT (lines 220-229)
builds a whole row from them; the UPDATE (lines 208-217) overwrites exactly
these columns, keeping id and key and refreshing the timestamp.  The
verified_by_ai column is always bound explicitly, so its DEFAULT FALSE never
applies and an absent field is stored as NULL. -/
def rowFromReq (req : SaveFormulaReq) (id : Nat) (k : String) (ts : Nat) : FormulaRow :=
  { id := id
    key := k
    category := bindStr req.category
    subject := bindStr req.subject
    topic := bindStr req.topic
    sub_topic := bindStr req.sub_topic
    formula := bindStr req.formula
    description := bindStr req.description
    «variables» := stringifyCell req.«variables»
    connections := stringifyCell req.connections
    examples := stringifyCell req.examples
    verified_by_ai := bindBool req.verified_by_ai
    custom_user := bindStr req.custom_user
    timestamp := ts }

def saveFormulaErr : SaveResp :=
  { status := 400, success := false, error := some "Key and formula are required."
    message := none, id := none }

def saveFormulaOk (id : Nat) : SaveResp :=
  { status := 200, success := true, error := none
    message := some "Formula saved successfully.", id := some id }

/-- POST /api/save-formula (server.js lines 181-241): validate truthiness of
key and formula, look the key up, then UPDATE the matched row or INSERT a
fresh one.  The response id is the found row id on the update path and
lastID on the insert path (line 238). -/
def saveFormula (req : SaveFormulaReq) (s : FormulasState) : SaveResp × FormulasState :=
  match req.key, req.formula with
  | some k, some f =>
    if k = "" || f = "" then (saveFormulaErr, s)
    else
      match s.rows.find? (fun r => r.key == k) with
      | some row =>
        (saveFormulaOk row.id,
         { s with
             rows := s.rows.map (fun r => if r.key == k then rowFromReq req r.id r.key s.now else r)
             now := s.now + 1 })
      | none =>
        (saveFormulaOk s.nextId,
         { rows := s.rows ++ [rowFromReq req s.nextId k s.now]
           nextId := s.nextId + 1
           now := s.now + 1 })
  | _, _ => (saveFormulaErr, s)

/-- An output row of GET /api/get-formulas: the stored row with the three
composite columns replaced by their parsed values. -/
structure FormulaOut where
  id : Nat
  key : String
  category : SqlValue
  subject : SqlValue
  topic : SqlValue
  sub_topic : SqlValue
  formula : SqlValue
  description : SqlValue
  «variables» : Json
  connections : Json
  examples : Json
  verified_by_ai : SqlValue
  custom_user : SqlValue
  timestamp : Nat

/-- The row mapping of GET /api/get-formulas (server.js lines 251-256):
spread of the row with variables, connections, examples parsed.  `none`
models JSON.parse throwing on a corrupt cell. -/
def formulaRowOut (r : FormulaRow) : Option FormulaOut :=
  match readComposite r.«variables», readComposite r.connections, readComposite r.examples with
  | some v, some c, some e =>
    some { id := r.id, key := r.key, category := r.category, subject := r.subject
           topic := r.topic, sub_topic := r.sub_topic, formula := r.formula
           description := r.description, «variables» := v, connections := c, examples := e
           verified_by_ai := r.verified_by_ai, custom_user := r.custom_user
           timestamp := r.timestamp }
  | _, _, _ => none

def insertByKey (r : FormulaRow) : List FormulaRow → List FormulaRow
  | [] => [r]
  | x :: xs => if r.key ≤ x.key then r :: x :: xs else x :: insertByKey r xs

/-- ORDER BY key ASC, modelled as insertion sort on the key column. -/
def sortByKey : List FormulaRow → List FormulaRow
  | [] => []
  | x :: xs => insertByKey x (sortByKey xs)

def formulaRowsOut : List FormulaRow → Option (List FormulaOut)
  | [] => some []
  | r :: rs =>
    match formulaRowOut r, formulaRowsOut rs with
    | some o, some os => some (o :: os)
    | _, _ => none

/-- GET /api/get-formulas (server.js lines 244-259). -/
def getFormulas (s : FormulasState) : Option (List FormulaOut) :=
  formulaRowsOut (sortByKey s.rows)

/-- The rows of the formulas table holding a given key. -/
def keyRows (s : FormulasState) (k : String) : List FormulaRow :=
  s.rows.filter (fun r => r.key == k)

/-- Every stored composite cell parses back; true of everything the server
itself writes, and what makes GET /api/get-formulas total. -/
def wfFormulas (s : FormulasState) : Bool :=
  s.rows.all (fun r => (formulaRowOut r).isSome)

def emptyFormulas : FormulasState := { rows := [], nextId := 1, now := 0 }

/-! ### problems table and its endpoints -/

/-- A row of the problems table (server.js lines 55-67). -/
structure ProblemRow where
  id : Nat
  text : String
  answer : String
  formulaKeys : Option String
  difficulty : SqlValue
  subject : SqlValue
  topic : SqlValue
  analysis : SqlValue
  hint : SqlValue
  custom_user : SqlValue
  timestamp : Nat
deriving DecidableEq

structure ProblemsState where
  rows : List ProblemRow
  nextId : Nat
  now : Nat
deriving DecidableEq

/-- Body of POST /api/save-problem (destructured at server.js line 263). -/
structure SaveProblemReq where
  text : Option String
  answer : Option String
  formulaKeys : Option Json
  difficulty : Option String
  subject : Option String
  topic : Option String
  analysis : Option String
  hint : Option String
  custom_user : Option String

def problemRowFromReq (req : SaveProblemReq) (t a : String) (id ts : Nat) : ProblemRow :=
  { id := id
    text := t
    answer := a
    formulaKeys := stringifyCell req.formulaKeys
    difficulty := bindStr req.difficulty
    subject := bindStr req.subject
    topic := bindStr req.topic
    analysis := bindStr req.analysis
    hint := bindStr req.hint
    custom_user := bindStr req.custom_user
    timestamp := ts }

def saveProblemErr : SaveResp :=
  { status := 400, success := false, error := some "Problem text and answer are required."
    message := none, id := none }

def saveProblemOk (id : Nat) : SaveResp :=
  { status := 200, success := true, error := none
    message := some "Problem saved successfully.", id := some id }

/-- POST /api/save-problem (server.js lines 262-283): validate truthiness of
text and answer, then always INSERT a fresh row. -/
def saveProblem (req : SaveProblemReq) (s : ProblemsState) : SaveResp × ProblemsState :=
  match req.text, req.answer with
  | some t, some a =>
    if t = "" || a = "" then (saveProblemErr, s)
    else
      (saveProblemOk s.nextId,
       { rows := s.rows ++ [problemRowFromReq req t a s.nextId s.now]
         nextId := s.nextId + 1
         now := s.now + 1 })
  | _, _ => (saveProblemErr, s)

/-- N sequential identical save-problem calls. -/
def saveProblemN (req : SaveProblemReq) : Nat → ProblemsState → ProblemsState
  | 0, s => s
  | n + 1, s => (saveProblem req (saveProblemN req n s)).2

/-- An output row of GET /api/get-problems: formulaKeys parsed back. -/
structure ProblemOut where
  id : Nat
  text : String
  answer : String
  formulaKeys : Json
  difficulty : SqlValue
  subject : SqlValue
  topic : SqlValue
  analysis : SqlValue
  hint : SqlValue
  custom_user : SqlValue
  timestamp : Nat

/-- The row mapping of GET /api/get-problems (server.js lines 292-295). -/
def problemRowOut (r : ProblemRow) : Option ProblemOut :=
  match readComposite r.formulaKeys with
  | some fk =>
    some { id := r.id, text := r.text, answer := r.answer, formulaKeys := fk
           difficulty := r.difficulty, subject := r.subject, topic := r.topic
           analysis := r.analysis, hint := r.hint, custom_user := r.custom_user
           timestamp := r.timestamp }
  | none => none

def insertByTsDesc (r : ProblemRow) : List ProblemRow → List ProblemRow
  | [] => [r]
  | x :: xs => if x.timestamp ≤ r.timestamp then r :: x :: xs else x :: insertByTsDesc r xs

/-- ORDER BY timestamp DESC, modelled as insertion sort, newest first. -/
def sortByTsDesc : List ProblemRow → List ProblemRow
  | [] => []
  | x :: xs => insertByTsDesc x (sortByTsDesc xs)

def problemRowsOut : List ProblemRow → Option (List ProblemOut)
  | [] => some []
  | r :: rs =>
    match problemRowOut r, problemRowsOut rs with
    | some o, some os => some (o :: os)
    | _, _ => none

/-- GET /api/get-problems (server.js lines 286-298). -/
def getProblems (s : ProblemsState) : Option (List ProblemOut) :=
  problemRowsOut (sortByTsDesc s.rows)

def wfProblems (s : ProblemsState) : Bool :=
  s.rows.all (fun r => (problemRowOut r).isSome)

def emptyProblems : ProblemsState := { rows := [], nextId := 1, now := 0 }

/-! ### submitted_content table and the AI proxy -/

/-- A row of the submitted_content table (server.js lines 28-34). -/
structure ContentRow where
  id : Nat
  prompt : String
  schema : Option String
  ai_response : Option String
  timestamp : Nat
deriving DecidableEq

structure ContentState where
  rows : List ContentRow
  nextId : Nat
  now : Nat
deriving DecidableEq

/-- Body of POST /api/call-gemini (destructured at server.js line 100: the
endpoint also accepts an apiKey from the client). -/
structure GeminiReq where
  prompt : Option String
  schema : Option Json
  apiKey : Option String

/-- Response envelope of /api/call-gemini. -/
structure GeminiResp where
  status : Nat
  success : Bool
  error : Option String
  data : Option String
deriving DecidableEq

/-- JS `a || b` on two optional strings: a if truthy, else b. -/
def jsOr (a b : Option String) : Option String :=
  if truthyStr a then a else b

def missingKeyMsg : String := "Gemini API key is missing. Please ensure it\x27s provided."

def geminiKeyMissingResp : GeminiResp :=
  { status := 400, success := false, error := some missingKeyMsg, data := none }

/-- The fire-and-forget INSERT INTO submitted_content issued after a
successful model call (server.js lines 126-135).  Its callback only logs, so
any failure leaves the table unchanged: dbFails models a driver failure, and
an absent prompt binds NULL into a NOT NULL column, which also fails. -/
def recordInteraction (dbFails : Bool) (prompt : Option String) (schema : Option Json)
    (text : String) (s : ContentState) : ContentState :=
  match prompt with
  | none => s
  | some p =>
    if dbFails then s
    else
      { rows := s.rows ++ [{ id := s.nextId, prompt := p, schema := stringifyCell schema
                             ai_response := some text, timestamp := s.now }]
        nextId := s.nextId + 1
        now := s.now + 1 }

/-- /api/call-gemini once a truthy key k is in hand (server.js lines
109-142): call the model (cm is the external service, returning either the
response text or an error message), record the interaction fire-and-forget,
and answer from the model result alone. -/
def geminiWithKey (cm : String → Option String → Option Json → Except String String)
    (dbFails : Bool) (req : GeminiReq) (k : String) (s : ContentState) :
    GeminiResp × ContentState :=
  match cm k req.prompt req.schema with
  | .error e => ({ status := 500, success := false, error := some e, data := none }, s)
  | .ok text =>
    ({ status := 200, success := true, error := none, data := some text },
     recordInteraction dbFails req.prompt req.schema text s)

/-- POST /api/call-gemini (server.js lines 98-143): the key is the body
apiKey if truthy, else the GEMINI_API_KEY environment value; a falsy result
is answered with 400 before anything else happens (lines 103-107). -/
def callGemini (cm : String → Option String → Option Json → Except String String)
    (dbFails : Bool) (req : GeminiReq) (envKey : Option String) (s : ContentState) :
    GeminiResp × ContentState :=
  match jsOr req.apiKey envKey with
  | none => (geminiKeyMissingResp, s)
  | some k =>
    if k = "" then (geminiKeyMissingResp, s)
    else geminiWithKey cm dbFails req k s

def emptyContent : ContentState := { rows := [], nextId := 1, now := 0 }

/-! ### Concrete fixtures used to evaluate the theorems on closed inputs -/

def reqA : SaveFormulaReq :=
  { key := some "area", category := some "math", subject := some "geometry", topic := none
    sub_topic := none, formula := some "S=ab", description := some "first version"
    «variables» := some (.arr (.cons (.obj (.cons "name" (.str "a") .nil)) .nil))
    connections := none, examples := none, verified_by_ai := some true, custom_user := none }

def reqB : SaveFormulaReq :=
  { key := some "area", category := none, subject := none, topic := some "rectangle"
    sub_topic := none, formula := some "S=a*b", description := none
    «variables» := some (.arr .nil), connections := none, examples := none
    verified_by_ai := none, custom_user := none }

def reqV : SaveFormulaReq :=
  { key := some "speed", category := none, subject := none, topic := none
    sub_topic := none, formula := some "v=s/t", description := none
    «variables» := some (.arr (.cons
      (.obj (.cons "name" (.str "x") (.cons "meaning" (.str "speed") .nil))) .nil))
    connections := none, examples := none, verified_by_ai := none, custom_user := none }

def reqP1 : SaveProblemReq :=
  { text := some "2+2?", answer := some "4", formulaKeys := none, difficulty := some "easy"
    subject := none, topic := none, analysis := none, hint := none, custom_user := none }

def reqG1 : GeminiReq := { prompt := some "hi", schema := none, apiKey := some "clientKey" }

def reqG0 : GeminiReq := { prompt := some "hi", schema := none, apiKey := none }

def cmOk : String → Option String → Option Json → Except String String :=
  fun _ _ _ => .ok "generated text"

/-- In stringify output, what may follow a printed value: end of input or a
separator/closer.  Used as the side condition of the round-trip proof. -/
def isDelim : List Char → Bool
  | [] => true
  | c :: _ => c = ',' || c = ']' || c = '}'

/-- The input does not continue with a digit (so a digit scan stops here). -/
def noDigitHead : List Char → Bool
  | [] => true
  | c :: _ => !c.isDigit

/-! ## Round-trip of the JSON model: parse is a left inverse of stringify -/

theorem digitChar_isDigit {d : Nat} (h : d < 10) : (Nat.digitChar d).isDigit = true := by
  interval_cases d <;> decide

theorem digitChar_val {d : Nat} (h : d < 10) : (Nat.digitChar d).toNat - 48 = d := by
  interval_cases d <;> decide

theorem natDigits_ne_nil (n : Nat) : natDigits n ≠ [] := by
  rw [natDigits]
  split <;> simp

theorem natDigits_all (m : Nat) : ∀ c ∈ natDigits m, c.isDigit = true := by
  induction m using Nat.strong_induction_on with
  | _ n ih =>
    rw [natDigits]
    split
    · next h =>
      intro c hc
      simp only [List.mem_singleton] at hc
      subst hc
      exact digitChar_isDigit h
    · next h =>
      intro c hc
      rw [List.mem_append] at hc
      rcases hc with hc | hc
      · exact ih (n / 10) (Nat.div_lt_self (by omega) (by omega)) c hc
      · simp only [List.mem_singleton] at hc
        subst hc
        exact digitChar_isDigit (Nat.mod_lt _ (by omega))

theorem natDigits_foldl (m : Nat) : ∀ acc : Nat,
    (natDigits m).foldl (fun a c => a * 10 + (c.toNat - 48)) acc =
      acc * 10 ^ (natDigits m).length + m := by
  induction m using Nat.strong_induction_on with
  | _ n ih =>
    intro acc
    rw [natDigits]
    split
    · next h =>
      simp only [List.foldl, List.length_singleton, pow_one]
      rw [digitChar_val h]
    · next h =>
      rw [List.foldl_append, List.length_append, List.foldl, List.foldl,
        ih (n / 10) (Nat.div_lt_self (by omega) (by omega)) acc,
        digitChar_val (Nat.mod_lt _ (by omega))]
      simp only [List.length_singleton, pow_succ, ← mul_assoc]
      generalize acc * 10 ^ (natDigits (n / 10)).length = A
      omega

theorem isDigit_ne {c : Char} (h : c.isDigit = true) :
    c ≠ 'n' ∧ c ≠ 't' ∧ c ≠ 'f' ∧ c ≠ '"' ∧ c ≠ '[' ∧ c ≠ '{' ∧ c ≠ '-' ∧ c ≠ ']' := by
  refine ⟨?_, ?_, ?_, ?_, ?_, ?_, ?_, ?_⟩ <;> (rintro rfl; exact absurd h (by decide))

theorem isDelim_noDigitHead {l : List Char} (h : isDelim l = true) : noDigitHead l = true := by
  cases l with
  | nil => rfl
  | cons c cs =>
    simp only [isDelim, Bool.or_eq_true, decide_eq_true_eq] at h
    rcases h with (h | h) | h <;> (subst h; rfl)

theorem scanDigits_append (ds : List Char) : ∀ (acc : Nat) (rest : List Char),
    (∀ c ∈ ds, c.isDigit = true) → noDigitHead rest = true →
    scanDigits acc (ds ++ rest) = (ds.foldl (fun a c => a * 10 + (c.toNat - 48)) acc, rest) := by
  induction ds with
  | nil =>
    intro acc rest _ hr
    cases rest with
    | nil => simp [scanDigits]
    | cons c cs =>
      simp only [noDigitHead, Bool.not_eq_true'] at hr
      simp [scanDigits, hr]
  | cons d ds ih =>
    intro acc rest hds hr
    have hd : d.isDigit = true := hds d (by simp)
    simp only [List.cons_append, scanDigits, hd, if_true, List.foldl_cons]
    exact ih _ rest (fun c hc => hds c (List.mem_cons_of_mem _ hc)) hr

/-- Scanning the decimal digits of n (with the leading digit already
consumed into the accumulator) recovers n and stops at the delimiter. -/
theorem scanDigits_natDigits (n : Nat) (rest : List Char) (hr : noDigitHead rest = true) :
    ∃ d ds, natDigits n = d :: ds ∧ d.isDigit = true ∧
      scanDigits (d.toNat - 48) (ds ++ rest) = (n, rest) := by
  obtain ⟨d, ds, hdd⟩ : ∃ d ds, natDigits n = d :: ds := by
    cases h : natDigits n with
    | nil => exact absurd h (natDigits_ne_nil n)
    | cons d ds => exact ⟨d, ds, rfl⟩
  have hall : ∀ c ∈ natDigits n, c.isDigit = true := natDigits_all n
  have hd : d.isDigit = true := hall d (by rw [hdd]; simp)
  refine ⟨d, ds, hdd, hd, ?_⟩
  have hds : ∀ c ∈ ds, c.isDigit = true := fun c hc => hall c (by rw [hdd]; simp [hc])
  rw [scanDigits_append ds _ rest hds hr]
  have hfold := natDigits_foldl n 0
  rw [hdd] at hfold
  simp only [List.foldl_cons, Nat.zero_mul, Nat.zero_add] at hfold
  rw [hfold]

theorem scanStr_escape (cs : List Char) : ∀ (acc rest : List Char),
    scanStr acc (escape cs ++ ('"' :: rest)) = some (⟨acc.reverse ++ cs⟩, rest) := by
  induction cs with
  | nil =>
    intro acc rest
    simp only [escape, List.nil_append]
    unfold scanStr
    simp
  | cons c cs ih =>
    intro acc rest
    by_cases h1 : c = '"'
    · subst h1
      simp only [escape, escChar, if_pos, List.cons_append, List.append_assoc]
      unfold scanStr
      simp [unescChar, ih, List.append_assoc]
    · by_cases h2 : c = '\\'
      · subst h2
        simp only [escape, escChar, List.cons_append, List.append_assoc]
        norm_num
        unfold scanStr
        simp [unescChar, ih, List.append_assoc]
      · by_cases h3 : c = '\n'
        · subst h3
          simp only [escape, escChar, List.cons_append, List.append_assoc]
          norm_num
          unfold scanStr
          simp [unescChar, ih, List.append_assoc]
        · by_cases h4 : c = '\t'
          · subst h4
            simp only [escape, escChar, List.cons_append, List.append_assoc]
            norm_num
            unfold scanStr
            simp [unescChar, ih, List.append_assoc]
          · by_cases h5 : c = '\r'
            · subst h5
              simp only [escape, escChar, List.cons_append, List.append_assoc]
              norm_num
              unfold scanStr
              simp [unescChar, ih, List.append_assoc]
            · simp only [escape, escChar, h1, h2, h3, h4, h5, if_neg, List.cons_append,
                List.append_assoc, List.singleton_append]
              unfold scanStr
              simp [h1, h2, ih, List.append_assoc]

theorem string_mk_data (s : String) : (⟨s.data⟩ : String) = s := rfl

theorem isDelim_printArrTail (t : JsonArr) (rest : List Char) :
    isDelim (printArrTail t ++ rest) = true := by
  cases t <;> simp [printArrTail, isDelim]

theorem isDelim_printObjTail (t : JsonObj) (rest : List Char) :
    isDelim (printObjTail t ++ rest) = true := by
  cases t <;> simp [printObjTail, isDelim]

/-- Every printed value starts with a character other than the array
closer, which is what the parser peeks at after an opening bracket. -/
theorem printJson_head (j : Json) : ∃ c cs, printJson j = c :: cs ∧ c ≠ ']' := by
  cases j with
  | null => exact ⟨'n', ['u', 'l', 'l'], by simp [printJson], by decide⟩
  | bool b =>
    cases b with
    | true => exact ⟨'t', ['r', 'u', 'e'], by simp [printJson], by decide⟩
    | false => exact ⟨'f', ['a', 'l', 's', 'e'], by simp [printJson], by decide⟩
  | num n =>
    by_cases hn : n < 0
    · exact ⟨'-', natDigits n.natAbs, by simp [printJson, printInt, hn], by decide⟩
    · obtain ⟨d, ds, hdd⟩ : ∃ d ds, natDigits n.toNat = d :: ds := by
        cases h : natDigits n.toNat with
        | nil => exact absurd h (natDigits_ne_nil _)
        | cons d ds => exact ⟨d, ds, rfl⟩
      have hd : d.isDigit = true := natDigits_all n.toNat d (by rw [hdd]; simp)
      exact ⟨d, ds, by simp [printJson, printInt, hn, hdd], (isDigit_ne hd).2.2.2.2.2.2.2⟩
  | str s => exact ⟨'"', escape s.data ++ ['"'], by simp [printJson], by decide⟩
  | arr a =>
    cases a with
    | nil => exact ⟨'[', [']'], by simp [printJson], by decide⟩
    | cons h t => exact ⟨'[', printJson h ++ printArrTail t, by simp [printJson], by decide⟩
  | obj o =>
    cases o with
    | nil => exact ⟨'{', ['}'], by simp [printJson], by decide⟩
    | cons k v t =>
      exact ⟨'{', '"' :: (escape k.data ++ '"' :: ':' :: (printJson v ++ printObjTail t)),
        by simp [printJson], by decide⟩

mutual

theorem parse_printJson : (j : Json) → ∀ (fuel : Nat) (rest : List Char),
    sizeJ j ≤ fuel → isDelim rest = true →
    parseVal fuel (printJson j ++ rest) = some (j, rest)
  | .null => by
    intro fuel rest hs hr
    cases fuel with
    | zero => simp [sizeJ] at hs
    | succ f => simp [printJson, parseVal]
  | .bool true => by
    intro fuel rest hs hr
    cases fuel with
    | zero => simp [sizeJ] at hs
    | succ f => simp [printJson, parseVal]
  | .bool false => by
    intro fuel rest hs hr
    cases fuel with
    | zero => simp [sizeJ] at hs
    | succ f => simp [printJson, parseVal]
  | .num n => by
    intro fuel rest hs hr
    cases fuel with
    | zero => simp [sizeJ] at hs
    | succ f =>
      have hnd := isDelim_noDigitHead hr
      by_cases hn : n < 0
      · obtain ⟨d, ds, hdd, hd, hscan⟩ := scanDigits_natDigits n.natAbs rest hnd
        have hneg : -((n.natAbs : Nat) : Int) = n := by omega
        simp only [printJson, printInt, if_pos hn, List.cons_append, hdd]
        simp [parseVal, hd, hscan, hneg]
        rw [abs_of_neg hn, neg_neg]
      · obtain ⟨d, ds, hdd, hd, hscan⟩ := scanDigits_natDigits n.toNat rest hnd
        have hpos : ((n.toNat : Nat) : Int) = n := by omega
        obtain ⟨e1, e2, e3, e4, e5, e6, e7, e8⟩ := isDigit_ne hd
        simp only [printJson, printInt, if_neg hn, hdd, List.cons_append]
        simp [parseVal, e1, e2, e3, e4, e5, e6, e7, hd, hscan, hpos]
  | .str s => by
    intro fuel rest hs hr
    cases fuel with
    | zero => simp [sizeJ] at hs
    | succ f =>
      simp only [printJson, List.cons_append, List.append_assoc, List.singleton_append]
      simp [parseVal, scanStr_escape, string_mk_data]
  | .arr .nil => by
    intro fuel rest hs hr
    cases fuel with
    | zero => simp [sizeJ] at hs
    | succ f => simp [printJson, parseVal]
  | .arr (.cons h t) => by
    intro fuel rest hs hr
    cases fuel with
    | zero => simp [sizeJ] at hs
    | succ f =>
      simp only [sizeJ, sizeA] at hs
      obtain ⟨c2, cs2, hph, hne⟩ := printJson_head h
      have ih1 := parse_printJson h f (printArrTail t ++ rest) (by omega)
        (isDelim_printArrTail t rest)
      have ih2 := parse_printArrTail t f rest (by omega) hr
      rw [hph] at ih1
      simp only [printJson, List.cons_append, List.append_assoc, hph]
      simp only [List.cons_append] at ih1 ⊢
      simp [parseVal, hne, ih1, ih2]
  | .obj .nil => by
    intro fuel rest hs hr
    cases fuel with
    | zero => simp [sizeJ] at hs
    | succ f => simp [printJson, parseVal]
  | .obj (.cons k v t) => by
    intro fuel rest hs hr
    cases fuel with
    | zero => simp [sizeJ] at hs
    | succ f =>
      simp only [sizeJ, sizeO] at hs
      have ih1 := parse_printJson v f (printObjTail t ++ rest) (by omega)
        (isDelim_printObjTail t rest)
      have ih2 := parse_printObjTail t f rest (by omega) hr
      simp only [printJson, List.cons_append, List.append_assoc, List.singleton_append]
      simp only [List.cons_append] at ih1 ⊢
      simp [parseVal, scanStr_escape, string_mk_data, ih1, ih2]

theorem parse_printArrTail : (t : JsonArr) → ∀ (fuel : Nat) (rest : List Char),
    sizeA t ≤ fuel → isDelim rest = true →
    parseArrTail fuel (printArrTail t ++ rest) = some (t, rest)
  | .nil => by
    intro fuel rest hs hr
    cases fuel with
    | zero => simp [printArrTail, parseArrTail]
    | succ f => simp [printArrTail, parseArrTail]
  | .cons h t => by
    intro fuel rest hs hr
    cases fuel with
    | zero => simp [sizeA] at hs
    | succ f =>
      simp only [sizeA] at hs
      have ih1 := parse_printJson h f (printArrTail t ++ rest) (by omega)
        (isDelim_printArrTail t rest)
      have ih2 := parse_printArrTail t f rest (by omega) hr
      simp only [printArrTail, List.cons_append, List.append_assoc]
      simp only [List.cons_append] at ih1 ⊢
      simp [parseArrTail, ih1, ih2]

theorem parse_printObjTail : (t : JsonObj) → ∀ (fuel : Nat) (rest : List Char),
    sizeO t ≤ fuel → isDelim rest = true →
    parseObjTail fuel (printObjTail t ++ rest) = some (t, rest)
  | .nil => by
    intro fuel rest hs hr
    cases fuel with
    | zero => simp [printObjTail, parseObjTail]
    | succ f => simp [printObjTail, parseObjTail]
  | .cons k v t => by
    intro fuel rest hs hr
    cases fuel with
    | zero => simp [sizeO] at hs
    | succ f =>
      simp only [sizeO] at hs
      have ih1 := parse_printJson v f (printObjTail t ++ rest) (by omega)
        (isDelim_printObjTail t rest)
      have ih2 := parse_printObjTail t f rest (by omega) hr
      simp only [printObjTail, List.cons_append, List.append_assoc, List.singleton_append]
      simp only [List.cons_append] at ih1 ⊢
      simp [parseObjTail, scanStr_escape, string_mk_data, ih1, ih2]

end

mutual

theorem sizeJ_le_length : (j : Json) → sizeJ j ≤ (printJson j).length
  | .null => by simp [sizeJ, printJson]
  | .bool true => by simp [sizeJ, printJson]
  | .bool false => by simp [sizeJ, printJson]
  | .num n => by
    simp only [sizeJ, printJson, printInt]
    split
    · simp
    · exact List.length_pos.mpr (natDigits_ne_nil _)
  | .str s => by simp [sizeJ, printJson]
  | .arr .nil => by simp [sizeJ, sizeA, printJson]
  | .arr (.cons h t) => by
    have ih1 := sizeJ_le_length h
    have ih2 := sizeA_lt_length t
    simp only [sizeJ, sizeA, printJson, List.length_cons, List.length_append]
    omega
  | .obj .nil => by simp [sizeJ, sizeO, printJson]
  | .obj (.cons k v t) => by
    have ih1 := sizeJ_le_length v
    have ih2 := sizeO_lt_length t
    simp only [sizeJ, sizeO, printJson, List.length_cons, List.length_append,
      List.length_singleton]
    omega

theorem sizeA_lt_length : (t : JsonArr) → sizeA t < (printArrTail t).length
  | .nil => by simp [sizeA, printArrTail]
  | .cons h t => by
    have ih1 := sizeJ_le_length h
    have ih2 := sizeA_lt_length t
    simp only [sizeA, printArrTail, List.length_cons, List.length_append]
    omega

theorem sizeO_lt_length : (t : JsonObj) → sizeO t < (printObjTail t).length
  | .nil => by simp [sizeO, printObjTail]
  | .cons k v t => by
    have ih1 := sizeJ_le_length v
    have ih2 := sizeO_lt_length t
    simp only [sizeO, printObjTail, List.length_cons, List.length_append,
      List.length_singleton]
    omega

end

/-- Round trip: JSON.parse inverts JSON.stringify on every JSON value of the
model. -/
theorem parse_stringifyJson (j : Json) : parseJsonStr (stringifyJson j) = some j := by
  have h1 : (stringifyJson j).data = printJson j := rfl
  unfold parseJsonStr
  rw [h1]
  have h2 := parse_printJson j (printJson j).length [] (sizeJ_le_length j) (by simp [isDelim])
  rw [List.append_nil] at h2
  rw [h2]

theorem printJson_ne_nil (j : Json) : printJson j ≠ [] := by
  obtain ⟨c, cs, h, _⟩ := printJson_head j
  simp [h]

theorem stringifyJson_ne_empty (j : Json) : stringifyJson j ≠ "" := by
  intro h
  exact printJson_ne_nil j (congrArg String.data h)

/-- Writing a truthy composite value and reading the cell back returns the
value itself. -/
theorem readComposite_stringifyCell_truthy (j : Json) (hj : truthyJson j = true) :
    readComposite (stringifyCell (some j)) = some j := by
  simp only [stringifyCell, hj, if_true, readComposite]
  rw [if_neg (stringifyJson_ne_empty j)]
  exact parse_stringifyJson j

/-- Every cell the server writes for a composite field reads back without
error. -/
theorem readComposite_stringifyCell_isSome (x : Option Json) :
    (readComposite (stringifyCell x)).isSome = true := by
  match x with
  | none => rfl
  | some j =>
    by_cases hj : truthyJson j = true
    · rw [readComposite_stringifyCell_truthy j hj]
      rfl
    · simp only [stringifyCell, hj, if_false, readComposite]
      rfl

/-- An absent composite field is stored as NULL and reads back as the empty
array. -/
theorem readComposite_none : readComposite (stringifyCell none) = some (.arr .nil) := rfl

/-- A supplied array round-trips exactly (arrays are always truthy in JS,
including the empty array). -/
theorem readComposite_arr (a : JsonArr) :
    readComposite (stringifyCell (some (.arr a))) = some (.arr a) :=
  readComposite_stringifyCell_truthy _ rfl

theorem readComposite_stringifyCell (x : Option Json) :
    readComposite (stringifyCell x) = some (cellRead x) := by
  match x with
  | none => rfl
  | some j =>
    by_cases hj : truthyJson j = true
    · rw [readComposite_stringifyCell_truthy j hj]
      simp [cellRead, hj]
    · simp [stringifyCell, hj, readComposite, cellRead]

/-! ## List lemmas -/

theorem find?_eq_head_filter {α : Type} (p : α → Bool) (l : List α) :
    l.find? p = (l.filter p).head? := by
  induction l with
  | nil => rfl
  | cons x xs ih =>
    by_cases h : p x
    · rw [List.find?_cons_of_pos _ h, List.filter_cons_of_pos h, List.head?_cons]
    · rw [List.find?_cons_of_neg _ h, List.filter_cons_of_neg h, ih]

theorem filter_map_comm {α : Type} (l : List α) (f : α → α) (p : α → Bool)
    (hf : ∀ r, p (f r) = p r) :
    (l.map f).filter p = (l.filter p).map f := by
  induction l with
  | nil => rfl
  | cons x xs ih =>
    by_cases h : p x
    · rw [List.map_cons, List.filter_cons_of_pos (by rw [hf]; exact h),
        List.filter_cons_of_pos h, List.map_cons, ih]
    · rw [List.map_cons, List.filter_cons_of_neg (by rw [hf]; exact h),
        List.filter_cons_of_neg h, ih]

/-! ## save-formula characterization -/

/-- The 400 branch of save-formula: missing or empty key/formula. -/
theorem saveFormula_invalid (req : SaveFormulaReq) (s : FormulasState)
    (h : req.key = none ∨ req.key = some "" ∨ req.formula = none ∨ req.formula = some "") :
    saveFormula req s = (saveFormulaErr, s) := by
  rcases h with h | h | h | h
  · cases hf : req.formula <;> simp [saveFormula, h, hf]
  · cases hf : req.formula <;> simp [saveFormula, h, hf]
  · cases hk : req.key <;> simp [saveFormula, h, hk]
  · cases hk : req.key <;> simp [saveFormula, h, hk]

/-- The INSERT path of save-formula. -/
theorem saveFormula_insert (req : SaveFormulaReq) (s : FormulasState) (k f : String)
    (hk : req.key = some k) (hf : req.formula = some f) (hk2 : k ≠ "") (hf2 : f ≠ "")
    (hfind : s.rows.find? (fun r => r.key == k) = none) :
    saveFormula req s =
      (saveFormulaOk s.nextId,
       { rows := s.rows ++ [rowFromReq req s.nextId k s.now]
         nextId := s.nextId + 1
         now := s.now + 1 }) := by
  simp [saveFormula, hk, hf, hk2, hf2, hfind]

/-- The UPDATE path of save-formula. -/
theorem saveFormula_update (req : SaveFormulaReq) (s : FormulasState) (k f : String)
    (row : FormulaRow)
    (hk : req.key = some k) (hf : req.formula = some f) (hk2 : k ≠ "") (hf2 : f ≠ "")
    (hfind : s.rows.find? (fun r => r.key == k) = some row) :
    saveFormula req s =
      (saveFormulaOk row.id,
       { s with
           rows := s.rows.map (fun r => if r.key == k then rowFromReq req r.id r.key s.now else r)
           now := s.now + 1 }) := by
  simp [saveFormula, hk, hf, hk2, hf2, hfind]

theorem rowFromReq_key (req : SaveFormulaReq) (i : Nat) (k : String) (ts : Nat) :
    (rowFromReq req i k ts).key = k := rfl

/-- The key filter invariance of the UPDATE row mapping. -/
theorem updateMap_preserves_keyTest (req : SaveFormulaReq) (k : String) (ts : Nat) :
    ∀ r : FormulaRow,
      ((if r.key == k then rowFromReq req r.id r.key ts else r).key == k) = (r.key == k) := by
  intro r
  by_cases h : r.key == k
  · simp [h, rowFromReq_key]
  · simp [h]

/-- After a valid save, the rows holding the key are exactly one row built
from the request (and nothing else changed about which keys exist). -/
theorem keyRows_after_save (req : SaveFormulaReq) (s : FormulasState) (k f : String)
    (hk : req.key = some k) (hf : req.formula = some f) (hk2 : k ≠ "") (hf2 : f ≠ "")
    (huniq : (keyRows s k).length ≤ 1) :
    ∃ i, keyRows (saveFormula req s).2 k = [rowFromReq req i k s.now] := by
  cases hfind : s.rows.find? (fun r => r.key == k) with
  | none =>
    refine ⟨s.nextId, ?_⟩
    rw [saveFormula_insert req s k f hk hf hk2 hf2 hfind]
    have hnone : s.rows.filter (fun r => r.key == k) = [] := by
      rw [List.filter_eq_nil_iff]
      intro r hr
      exact List.find?_eq_none.mp hfind r hr
    simp [keyRows, List.filter_append, hnone, rowFromReq_key]
  | some row =>
    refine ⟨row.id, ?_⟩
    rw [saveFormula_update req s k f row hk hf hk2 hf2 hfind]
    have hkeyrows : keyRows s k = [row] := by
      have hhead : (keyRows s k).head? = some row := by
        rw [keyRows, ← find?_eq_head_filter]
        exact hfind
      match hkr : keyRows s k with
      | [] => rw [hkr] at hhead; simp at hhead
      | [x] => rw [hkr] at hhead; simp at hhead; rw [hhead]
      | x :: y :: zs => rw [hkr] at huniq; simp at huniq
    have hrowkey : row.key = k := by
      have := List.find?_some hfind
      simpa using this
    show (s.rows.map fun r => if r.key == k then rowFromReq req r.id r.key s.now else r).filter
        (fun r => r.key == k) = _
    rw [filter_map_comm _ _ _ (updateMap_preserves_keyTest req k s.now)]
    have : s.rows.filter (fun r => r.key == k) = [row] := hkeyrows
    rw [this]
    simp [hrowkey]

/-- The three outcomes of save-formula: 400, UPDATE, INSERT. -/
theorem saveFormula_cases (req : SaveFormulaReq) (s : FormulasState) :
    (saveFormula req s = (saveFormulaErr, s)) ∨
    (∃ k f, req.key = some k ∧ req.formula = some f ∧ k ≠ "" ∧ f ≠ "" ∧
      ((∃ row, s.rows.find? (fun r => r.key == k) = some row ∧
          saveFormula req s = (saveFormulaOk row.id,
            { s with
                rows := s.rows.map
                  (fun r => if r.key == k then rowFromReq req r.id r.key s.now else r)
                now := s.now + 1 })) ∨
       (s.rows.find? (fun r => r.key == k) = none ∧
          saveFormula req s = (saveFormulaOk s.nextId,
            { rows := s.rows ++ [rowFromReq req s.nextId k s.now]
              nextId := s.nextId + 1
              now := s.now + 1 })))) := by
  cases hk : req.key with
  | none => exact Or.inl (saveFormula_invalid req s (Or.inl hk))
  | some k =>
    cases hf : req.formula with
    | none => exact Or.inl (saveFormula_invalid req s (Or.inr (Or.inr (Or.inl hf))))
    | some f =>
      by_cases hk2 : k = ""
      · subst hk2
        exact Or.inl (saveFormula_invalid req s (Or.inr (Or.inl hk)))
      · by_cases hf2 : f = ""
        · subst hf2
          exact Or.inl (saveFormula_invalid req s (Or.inr (Or.inr (Or.inr hf))))
        · refine Or.inr ⟨k, f, rfl, rfl, hk2, hf2, ?_⟩
          cases hfind : s.rows.find? (fun r => r.key == k) with
          | some row =>
            exact Or.inl ⟨row, rfl, saveFormula_update req s k f row hk hf hk2 hf2 hfind⟩
          | none =>
            exact Or.inr ⟨rfl, saveFormula_insert req s k f hk hf hk2 hf2 hfind⟩

theorem formulaRowOut_rowFromReq (req : SaveFormulaReq) (i : Nat) (k : String) (ts : Nat) :
    formulaRowOut (rowFromReq req i k ts) =
      some { id := i, key := k, category := bindStr req.category, subject := bindStr req.subject
             topic := bindStr req.topic, sub_topic := bindStr req.sub_topic
             formula := bindStr req.formula, description := bindStr req.description
             «variables» := cellRead req.«variables», connections := cellRead req.connections
             examples := cellRead req.examples, verified_by_ai := bindBool req.verified_by_ai
             custom_user := bindStr req.custom_user, timestamp := ts } := by
  simp [formulaRowOut, rowFromReq, readComposite_stringifyCell]

theorem mem_insertByKey (r x : FormulaRow) (l : List FormulaRow) :
    x ∈ insertByKey r l ↔ x = r ∨ x ∈ l := by
  induction l with
  | nil => simp [insertByKey]
  | cons y ys ih =>
    simp only [insertByKey]
    split
    · simp [List.mem_cons]
    · simp only [List.mem_cons, ih]
      tauto

theorem mem_sortByKey (x : FormulaRow) (l : List FormulaRow) :
    x ∈ sortByKey l ↔ x ∈ l := by
  induction l with
  | nil => simp [sortByKey]
  | cons y ys ih => simp [sortByKey, mem_insertByKey, ih]

theorem formulaRowsOut_total (l : List FormulaRow)
    (h : ∀ r ∈ l, (formulaRowOut r).isSome = true) :
    ∃ out, formulaRowsOut l = some out ∧
      (∀ o ∈ out, ∃ r, r ∈ l ∧ formulaRowOut r = some o) ∧
      (∀ r ∈ l, ∃ o, o ∈ out ∧ formulaRowOut r = some o) := by
  induction l with
  | nil => exact ⟨[], rfl, by simp, by simp⟩
  | cons r rs ih =>
    obtain ⟨o, ho⟩ := Option.isSome_iff_exists.mp (h r (by simp))
    obtain ⟨out, hout, hmem1, hmem2⟩ := ih (fun r2 hr2 => h r2 (by simp [hr2]))
    refine ⟨o :: out, ?_, ?_, ?_⟩
    · simp [formulaRowsOut, ho, hout]
    · intro o2 ho2
      rcases List.mem_cons.mp ho2 with h2 | h2
      · exact ⟨r, by simp, by rw [← h2] at ho; exact ho⟩
      · obtain ⟨r2, hr2, heq⟩ := hmem1 o2 h2
        exact ⟨r2, by simp [hr2], heq⟩
    · intro r2 hr2
      rcases List.mem_cons.mp hr2 with h2 | h2
      · exact ⟨o, by simp, by rw [h2]; exact ho⟩
      · obtain ⟨o2, ho2, heq⟩ := hmem2 r2 h2
        exact ⟨o2, by simp [ho2], heq⟩

theorem wfFormulas_saveFormula (req : SaveFormulaReq) (s : FormulasState)
    (hwf : wfFormulas s = true) : wfFormulas (saveFormula req s).2 = true := by
  have hnew : ∀ i k ts, (formulaRowOut (rowFromReq req i k ts)).isSome = true := by
    intro i k ts
    rw [formulaRowOut_rowFromReq]
    rfl
  unfold wfFormulas at hwf
  rw [List.all_eq_true] at hwf
  rcases saveFormula_cases req s with h | ⟨k, f, _, _, _, _, ⟨row, hfind, h⟩ | ⟨hfind, h⟩⟩
  · rw [h]
    unfold wfFormulas
    rw [List.all_eq_true]
    exact hwf
  · rw [h]
    unfold wfFormulas
    rw [List.all_eq_true]
    intro r hr
    simp only [List.mem_map] at hr
    obtain ⟨r0, hr0, hmap⟩ := hr
    rw [← hmap]
    by_cases hrk : r0.key == k
    · simp only [hrk, if_true]
      exact hnew _ _ _
    · simp only [hrk]
      simp only [Bool.false_eq_true, if_false]
      exact hwf r0 hr0
  · rw [h]
    unfold wfFormulas
    rw [List.all_eq_true]
    intro r hr
    simp only [List.mem_append, List.mem_singleton] at hr
    rcases hr with hr | hr
    · exact hwf r hr
    · rw [hr]
      exact hnew _ _ _

/-! ## save-problem characterization -/

theorem saveProblem_invalid (req : SaveProblemReq) (s : ProblemsState)
    (h : req.text = none ∨ req.text = some "" ∨ req.answer = none ∨ req.answer = some "") :
    saveProblem req s = (saveProblemErr, s) := by
  rcases h with h | h | h | h
  · cases ha : req.answer <;> simp [saveProblem, h, ha]
  · cases ha : req.answer <;> simp [saveProblem, h, ha]
  · cases ht : req.text <;> simp [saveProblem, h, ht]
  · cases ht : req.text <;> simp [saveProblem, h, ht]

theorem saveProblem_valid (req : SaveProblemReq) (t a : String)
    (ht : req.text = some t) (ha : req.answer = some a) (ht2 : t ≠ "") (ha2 : a ≠ "")
    (s : ProblemsState) :
    saveProblem req s =
      (saveProblemOk s.nextId,
       { rows := s.rows ++ [problemRowFromReq req t a s.nextId s.now]
         nextId := s.nextId + 1
         now := s.now + 1 }) := by
  simp [saveProblem, ht, ha, ht2, ha2]

/-- N valid identical save-problem calls append exactly N fresh rows with
consecutive ids and touch nothing else. -/
theorem saveProblemN_char (req : SaveProblemReq) (t a : String)
    (ht : req.text = some t) (ha : req.answer = some a) (ht2 : t ≠ "") (ha2 : a ≠ "") :
    ∀ (N : Nat) (s : ProblemsState),
    saveProblemN req N s =
      { rows := s.rows ++
          (List.range N).map (fun i => problemRowFromReq req t a (s.nextId + i) (s.now + i))
        nextId := s.nextId + N
        now := s.now + N } := by
  intro N
  induction N with
  | zero =>
    intro s
    simp [saveProblemN]
  | succ n ih =>
    intro s
    rw [saveProblemN, ih, saveProblem_valid req t a ht ha ht2 ha2]
    rw [List.range_succ, List.map_append, List.map_singleton, ← List.append_assoc]
    congr 1 <;> omega

theorem problemRowOut_fromReq (req : SaveProblemReq) (t a : String) (i ts : Nat) :
    problemRowOut (problemRowFromReq req t a i ts) =
      some { id := i, text := t, answer := a, formulaKeys := cellRead req.formulaKeys
             difficulty := bindStr req.difficulty, subject := bindStr req.subject
             topic := bindStr req.topic, analysis := bindStr req.analysis
             hint := bindStr req.hint, custom_user := bindStr req.custom_user
             timestamp := ts } := by
  simp [problemRowOut, problemRowFromReq, readComposite_stringifyCell]

theorem mem_insertByTsDesc (r x : ProblemRow) (l : List ProblemRow) :
    x ∈ insertByTsDesc r l ↔ x = r ∨ x ∈ l := by
  induction l with
  | nil => simp [insertByTsDesc]
  | cons y ys ih =>
    simp only [insertByTsDesc]
    split
    · simp [List.mem_cons]
    · simp only [List.mem_cons, ih]
      tauto

theorem mem_sortByTsDesc (x : ProblemRow) (l : List ProblemRow) :
    x ∈ sortByTsDesc l ↔ x ∈ l := by
  induction l with
  | nil => simp [sortByTsDesc]
  | cons y ys ih => simp [sortByTsDesc, mem_insertByTsDesc, ih]

theorem problemRowsOut_total (l : List ProblemRow)
    (h : ∀ r ∈ l, (problemRowOut r).isSome = true) :
    ∃ out, problemRowsOut l = some out ∧
      (∀ o ∈ out, ∃ r, r ∈ l ∧ problemRowOut r = some o) ∧
      (∀ r ∈ l, ∃ o, o ∈ out ∧ problemRowOut r = some o) := by
  induction l with
  | nil => exact ⟨[], rfl, by simp, by simp⟩
  | cons r rs ih =>
    obtain ⟨o, ho⟩ := Option.isSome_iff_exists.mp (h r (by simp))
    obtain ⟨out, hout, hmem1, hmem2⟩ := ih (fun r2 hr2 => h r2 (by simp [hr2]))
    refine ⟨o :: out, ?_, ?_, ?_⟩
    · simp [problemRowsOut, ho, hout]
    · intro o2 ho2
      rcases List.mem_cons.mp ho2 with h2 | h2
      · exact ⟨r, by simp, by rw [← h2] at ho; exact ho⟩
      · obtain ⟨r2, hr2, heq⟩ := hmem1 o2 h2
        exact ⟨r2, by simp [hr2], heq⟩
    · intro r2 hr2
      rcases List.mem_cons.mp hr2 with h2 | h2
      · exact ⟨o, by simp, by rw [h2]; exact ho⟩
      · obtain ⟨o2, ho2, heq⟩ := hmem2 r2 h2
        exact ⟨o2, by simp [ho2], heq⟩

/-! ## call-gemini characterization -/

theorem truthyStr_false_iff (x : Option String) :
    truthyStr x = false ↔ (x = none ∨ x = some "") := by
  cases x with
  | none => simp [truthyStr]
  | some v => simp [truthyStr]

/-- Both key sources falsy: 400 before anything else, store untouched. -/
theorem callGemini_missing (cm : String → Option String → Option Json → Except String String)
    (dbFails : Bool) (req : GeminiReq) (envKey : Option String) (s : ContentState)
    (h1 : truthyStr req.apiKey = false) (h2 : truthyStr envKey = false) :
    callGemini cm dbFails req envKey s = (geminiKeyMissingResp, s) := by
  have hj : jsOr req.apiKey envKey = envKey := by simp [jsOr, h1]
  rcases (truthyStr_false_iff envKey).mp h2 with h | h <;> (subst h; simp [callGemini, hj])

/-- A truthy body apiKey is the key used: the environment value is ignored. -/
theorem callGemini_usesBodyKey (cm : String → Option String → Option Json → Except String String)
    (dbFails : Bool) (req : GeminiReq) (envKey : Option String) (s : ContentState)
    (k : String) (hk : req.apiKey = some k) (hk2 : k ≠ "") :
    callGemini cm dbFails req envKey s = geminiWithKey cm dbFails req k s := by
  have hj : jsOr req.apiKey envKey = some k := by simp [jsOr, truthyStr, hk, hk2]
  simp [callGemini, hj, hk2]

/-- A successful model call answers 200 with the text whatever happens to
the fire-and-forget insert. -/
theorem callGemini_ok (cm : String → Option String → Option Json → Except String String)
    (dbFails : Bool) (req : GeminiReq) (envKey : Option String) (s : ContentState)
    (k : String) (text : String)
    (hk : jsOr req.apiKey envKey = some k) (hk2 : k ≠ "")
    (hcm : cm k req.prompt req.schema = .ok text) :
    callGemini cm dbFails req envKey s =
      ({ status := 200, success := true, error := none, data := some text },
       recordInteraction dbFails req.prompt req.schema text s) := by
  simp [callGemini, hk, hk2, geminiWithKey, hcm]

/-- With a truthy key in hand the response is never the missing-key 400. -/
theorem geminiWithKey_ne_missing
    (cm : String → Option String → Option Json → Except String String)
    (dbFails : Bool) (req : GeminiReq) (k : String) (s : ContentState) :
    (geminiWithKey cm dbFails req k s).1 ≠ geminiKeyMissingResp := by
  unfold geminiWithKey
  cases hcm : cm k req.prompt req.schema <;> simp [geminiKeyMissingResp]

theorem truthyStr_true_iff (x : Option String) :
    truthyStr x = true ↔ ∃ v, x = some v ∧ v ≠ "" := by
  cases x with
  | none => simp [truthyStr]
  | some v => simp [truthyStr]

/-- A falsy body apiKey falls back to a truthy environment key. -/
theorem callGemini_usesEnvKey (cm : String → Option String → Option Json → Except String String)
    (dbFails : Bool) (req : GeminiReq) (envKey : Option String) (s : ContentState)
    (k : String) (ha : truthyStr req.apiKey = false) (hk : envKey = some k) (hk2 : k ≠ "") :
    callGemini cm dbFails req envKey s = geminiWithKey cm dbFails req k s := by
  have hj : jsOr req.apiKey envKey = some k := by rw [jsOr, ha]; simp [hk]
  simp [callGemini, hj, hk2]

/-! ## Read-side field preservation -/

theorem formulaRowOut_fields (r : FormulaRow) (o : FormulaOut)
    (h : formulaRowOut r = some o) :
    o.key = r.key ∧ o.id = r.id ∧ o.verified_by_ai = r.verified_by_ai := by
  unfold formulaRowOut at h
  cases h1 : readComposite r.«variables» with
  | none => rw [h1] at h; simp at h
  | some v =>
    cases h2 : readComposite r.connections with
    | none => rw [h1, h2] at h; simp at h
    | some c =>
      cases h3 : readComposite r.examples with
      | none => rw [h1, h2, h3] at h; simp at h
      | some e =>
        rw [h1, h2, h3] at h
        simp only [Option.some.injEq] at h
        rw [← h]
        exact ⟨rfl, rfl, rfl⟩

theorem problemRowOut_fields (r : ProblemRow) (o : ProblemOut)
    (h : problemRowOut r = some o) : o.id = r.id := by
  unfold problemRowOut at h
  cases h1 : readComposite r.formulaKeys with
  | none => rw [h1] at h; simp at h
  | some fk =>
    rw [h1] at h
    simp only [Option.some.injEq] at h
    rw [← h]

/-- After a valid save on a well-formed store, get-formulas succeeds and the
unique output row for the saved key is the read-back of the written row. -/
theorem save_then_get (req : SaveFormulaReq) (s : FormulasState) (k f : String)
    (hk : req.key = some k) (hf : req.formula = some f) (hk2 : k ≠ "") (hf2 : f ≠ "")
    (huniq : (keyRows s k).length ≤ 1) (hwf : wfFormulas s = true) :
    ∃ i out o,
      keyRows (saveFormula req s).2 k = [rowFromReq req i k s.now] ∧
      getFormulas (saveFormula req s).2 = some out ∧
      formulaRowOut (rowFromReq req i k s.now) = some o ∧
      o ∈ out ∧
      (∀ o2 ∈ out, o2.key = k → o2 = o) := by
  obtain ⟨i, hkr⟩ := keyRows_after_save req s k f hk hf hk2 hf2 huniq
  have hwf2 := wfFormulas_saveFormula req s hwf
  unfold wfFormulas at hwf2
  rw [List.all_eq_true] at hwf2
  have hall : ∀ r ∈ sortByKey (saveFormula req s).2.rows, (formulaRowOut r).isSome = true :=
    fun r hr => hwf2 r ((mem_sortByKey r _).mp hr)
  obtain ⟨out, hout, hmem1, hmem2⟩ := formulaRowsOut_total _ hall
  have hrowmem : rowFromReq req i k s.now ∈ (saveFormula req s).2.rows := by
    have : rowFromReq req i k s.now ∈ keyRows (saveFormula req s).2 k := by
      rw [hkr]
      simp
    exact (List.mem_filter.mp this).1
  obtain ⟨o, homem, hoeq⟩ := hmem2 _ ((mem_sortByKey _ _).mpr hrowmem)
  refine ⟨i, out, o, hkr, ?_, hoeq, homem, ?_⟩
  · unfold getFormulas
    exact hout
  · intro o2 ho2 hko2
    obtain ⟨r2, hr2mem, hr2eq⟩ := hmem1 o2 ho2
    have hr2key : r2.key = k := by
      rw [← (formulaRowOut_fields r2 o2 hr2eq).1]
      exact hko2
    have hr2rows : r2 ∈ (saveFormula req s).2.rows := (mem_sortByKey r2 _).mp hr2mem
    have hr2kr : r2 ∈ keyRows (saveFormula req s).2 k := by
      rw [keyRows]
      exact List.mem_filter.mpr ⟨hr2rows, by simp [hr2key]⟩
    rw [hkr] at hr2kr
    simp only [List.mem_singleton] at hr2kr
    rw [hr2kr] at hr2eq
    rw [hr2eq] at hoeq
    simp only [Option.some.injEq] at hoeq
    rw [hoeq]

/-! ## The claims -/

/-- C1: two valid save-formula calls with the same nonempty key and nonempty
formula leave exactly one row for that key, every column of which is built
from the second request alone (absent fields stored as NULL), i.e. a full
replace, not a merge with the first call's values. -/
theorem c1_save_formula_full_replace
    (s : FormulasState) (req1 req2 : SaveFormulaReq) (k f1 f2 : String)
    (hk1 : req1.key = some k) (hk2r : req2.key = some k) (hkne : k ≠ "")
    (hf1 : req1.formula = some f1) (hf1n : f1 ≠ "")
    (hf2 : req2.formula = some f2) (hf2n : f2 ≠ "")
    (huniq : (keyRows s k).length ≤ 1) :
    ∃ i ts, keyRows (saveFormula req2 (saveFormula req1 s).2).2 k =
      [rowFromReq req2 i k ts] := by
  obtain ⟨i1, h1⟩ := keyRows_after_save req1 s k f1 hk1 hf1 hkne hf1n huniq
  have huniq2 : (keyRows (saveFormula req1 s).2 k).length ≤ 1 := by
    rw [h1]
    simp
  obtain ⟨i2, h2⟩ := keyRows_after_save req2 _ k f2 hk2r hf2 hkne hf2n huniq2
  exact ⟨i2, _, h2⟩

theorem c1_witness :
    reqA.key = some "area" ∧ reqB.key = some "area" ∧ ("area" : String) ≠ "" ∧
    reqA.formula = some "S=ab" ∧ ("S=ab" : String) ≠ "" ∧
    reqB.formula = some "S=a*b" ∧ ("S=a*b" : String) ≠ "" ∧
    (keyRows emptyFormulas "area").length ≤ 1 ∧
    ∃ i ts, keyRows (saveFormula reqB (saveFormula reqA emptyFormulas).2).2 "area" =
      [rowFromReq reqB i "area" ts] :=
  ⟨rfl, rfl, by decide, rfl, by decide, rfl, by decide, by decide,
   c1_save_formula_full_replace emptyFormulas reqA reqB "area" "S=ab" "S=a*b"
     rfl rfl (by decide) rfl (by decide) rfl (by decide) (by decide)⟩

/-- C2: save-formula with key or formula absent or empty answers 400 with
success false and the validation error, and leaves the formulas table
exactly as it was. -/
theorem c2_save_formula_validation (req : SaveFormulaReq) (s : FormulasState)
    (h : req.key = none ∨ req.key = some "" ∨ req.formula = none ∨ req.formula = some "") :
    (saveFormula req s).1.status = 400 ∧ (saveFormula req s).1.success = false ∧
      (saveFormula req s).1.error = some "Key and formula are required." ∧
      (saveFormula req s).2 = s := by
  rw [saveFormula_invalid req s h]
  exact ⟨rfl, rfl, rfl, rfl⟩

theorem c2_witness :
    ({ reqA with formula := none } : SaveFormulaReq).formula = none ∧
    ((saveFormula { reqA with formula := none } emptyFormulas).1.status = 400 ∧
      (saveFormula { reqA with formula := none } emptyFormulas).1.success = false ∧
      (saveFormula { reqA with formula := none } emptyFormulas).1.error =
        some "Key and formula are required." ∧
      (saveFormula { reqA with formula := none } emptyFormulas).2 = emptyFormulas) :=
  ⟨rfl, c2_save_formula_validation { reqA with formula := none } emptyFormulas
    (Or.inr (Or.inr (Or.inl rfl)))⟩

/-- C3 counterexample: an insert-path call (into the empty store) and an
update-path call (the same request again) return byte-identical responses,
so the response carries no flag indicating which path was taken — refuting
the claim as stated. -/
theorem c3_counterexample :
    (saveFormula reqA emptyFormulas).1 =
      (saveFormula reqA (saveFormula reqA emptyFormulas).2).1 ∧
    emptyFormulas.rows.find? (fun r => r.key == "area") = none ∧
    ((saveFormula reqA emptyFormulas).2.rows.find? (fun r => r.key == "area")).isSome = true := by
  refine ⟨?_, rfl, ?_⟩ <;> decide

/-- C3 amended: the response of a successful save-formula carries the row
identifier — the pre-existing row's id on the update path, the fresh id on
the insert path — but both paths answer with the same status, success flag
and message, so nothing in the response indicates the path. -/
theorem c3_amended_response_id (req : SaveFormulaReq) (s : FormulasState) (k f : String)
    (hk : req.key = some k) (hf : req.formula = some f) (hk2 : k ≠ "") (hf2 : f ≠ "") :
    (∀ row, s.rows.find? (fun r => r.key == k) = some row →
       (saveFormula req s).1 = saveFormulaOk row.id) ∧
    (s.rows.find? (fun r => r.key == k) = none →
       (saveFormula req s).1 = saveFormulaOk s.nextId) := by
  constructor
  · intro row hfind
    rw [saveFormula_update req s k f row hk hf hk2 hf2 hfind]
  · intro hfind
    rw [saveFormula_insert req s k f hk hf hk2 hf2 hfind]

theorem c3_amended_witness :
    reqA.key = some "area" ∧ reqA.formula = some "S=ab" ∧
    ((∀ row, emptyFormulas.rows.find? (fun r => r.key == "area") = some row →
        (saveFormula reqA emptyFormulas).1 = saveFormulaOk row.id) ∧
     (emptyFormulas.rows.find? (fun r => r.key == "area") = none →
        (saveFormula reqA emptyFormulas).1 = saveFormulaOk emptyFormulas.nextId)) :=
  ⟨rfl, rfl, c3_amended_response_id reqA emptyFormulas "area" "S=ab" rfl rfl
    (by decide) (by decide)⟩

/-- C4: N valid save-problem calls with identical text and answer append N
rows with pairwise distinct ids to the problems table; prior rows are kept
untouched and nothing is deduplicated, updated or deleted. -/
theorem c4_save_problem_append_only (req : SaveProblemReq) (t a : String) (N : Nat)
    (s : ProblemsState)
    (ht : req.text = some t) (ha : req.answer = some a) (ht2 : t ≠ "") (ha2 : a ≠ "") :
    (saveProblemN req N s).rows =
      s.rows ++ (List.range N).map
        (fun i => problemRowFromReq req t a (s.nextId + i) (s.now + i)) ∧
    ((List.range N).map
        (fun i => problemRowFromReq req t a (s.nextId + i) (s.now + i))).length = N ∧
    (((List.range N).map
        (fun i => problemRowFromReq req t a (s.nextId + i) (s.now + i))).map
      (fun r => r.id)).Nodup := by
  refine ⟨?_, by simp, ?_⟩
  · rw [saveProblemN_char req t a ht ha ht2 ha2 N s]
  · rw [List.map_map]
    have hcomp : ((fun r : ProblemRow => r.id) ∘
        fun i => problemRowFromReq req t a (s.nextId + i) (s.now + i)) =
        fun i => s.nextId + i := rfl
    rw [hcomp]
    exact List.Nodup.map (fun x y hxy => by omega) (List.nodup_range N)

theorem c4_witness :
    reqP1.text = some "2+2?" ∧ reqP1.answer = some "4" ∧
    ((saveProblemN reqP1 3 emptyProblems).rows =
      emptyProblems.rows ++ (List.range 3).map
        (fun i => problemRowFromReq reqP1 "2+2?" "4" (emptyProblems.nextId + i)
          (emptyProblems.now + i)) ∧
     ((List.range 3).map
        (fun i => problemRowFromReq reqP1 "2+2?" "4" (emptyProblems.nextId + i)
          (emptyProblems.now + i))).length = 3 ∧
     (((List.range 3).map
        (fun i => problemRowFromReq reqP1 "2+2?" "4" (emptyProblems.nextId + i)
          (emptyProblems.now + i))).map (fun r => r.id)).Nodup) :=
  ⟨rfl, rfl, c4_save_problem_append_only reqP1 "2+2?" "4" 3 emptyProblems rfl rfl
    (by decide) (by decide)⟩

/-- C5: a formula saved with a supplied variables array reads back from
get-formulas with exactly that array as a structured value in the variables
field of that key's row (serialize-then-parse is the identity there). -/
theorem c5_variables_roundtrip (s : FormulasState) (req : SaveFormulaReq)
    (k f : String) (a : JsonArr)
    (hk : req.key = some k) (hf : req.formula = some f) (hk2 : k ≠ "") (hf2 : f ≠ "")
    (hv : req.«variables» = some (.arr a))
    (huniq : (keyRows s k).length ≤ 1) (hwf : wfFormulas s = true) :
    ∃ out, getFormulas (saveFormula req s).2 = some out ∧
      (∃ o, o ∈ out ∧ o.key = k ∧ o.«variables» = Json.arr a) ∧
      (∀ o ∈ out, o.key = k → o.«variables» = Json.arr a) := by
  obtain ⟨i, out, o, hkr, hget, hoeq, homem, huniqo⟩ :=
    save_then_get req s k f hk hf hk2 hf2 huniq hwf
  rw [formulaRowOut_rowFromReq] at hoeq
  simp only [Option.some.injEq] at hoeq
  have hvar : o.«variables» = Json.arr a := by
    rw [← hoeq]
    simp [cellRead, hv, truthyJson]
  have hkey : o.key = k := by
    rw [← hoeq]
  refine ⟨out, hget, ⟨o, homem, hkey, hvar⟩, ?_⟩
  intro o2 ho2 hko2
  rw [huniqo o2 ho2 hko2]
  exact hvar

theorem c5_witness :
    reqV.«variables» = some (.arr (.cons
      (.obj (.cons "name" (.str "x") (.cons "meaning" (.str "speed") .nil))) .nil)) ∧
    wfFormulas emptyFormulas = true ∧
    ∃ out, getFormulas (saveFormula reqV emptyFormulas).2 = some out ∧
      (∃ o, o ∈ out ∧ o.key = "speed" ∧ o.«variables» = Json.arr (.cons
        (.obj (.cons "name" (.str "x") (.cons "meaning" (.str "speed") .nil))) .nil)) ∧
      (∀ o ∈ out, o.key = "speed" → o.«variables» = Json.arr (.cons
        (.obj (.cons "name" (.str "x") (.cons "meaning" (.str "speed") .nil))) .nil)) :=
  ⟨rfl, rfl,
   c5_variables_roundtrip emptyFormulas reqV "speed" "v=s/t" _
     rfl rfl (by decide) (by decide) rfl (by decide) rfl⟩

/-- C6: a valid save-problem call that omits formulaKeys stores NULL in that
column, and get-problems returns the empty array for that row — absence of a
list-valued composite field round-trips to an empty sequence on read. -/
theorem c6_formulaKeys_absent_roundtrip (s : ProblemsState) (req : SaveProblemReq)
    (t a : String)
    (ht : req.text = some t) (ha : req.answer = some a) (ht2 : t ≠ "") (ha2 : a ≠ "")
    (hfk : req.formulaKeys = none)
    (hwf : wfProblems s = true) (hid : ∀ r ∈ s.rows, r.id < s.nextId) :
    (∃ r, r ∈ (saveProblem req s).2.rows ∧ r.id = s.nextId ∧ r.formulaKeys = none) ∧
    (∃ out, getProblems (saveProblem req s).2 = some out ∧
      (∃ o, o ∈ out ∧ o.id = s.nextId ∧ o.formulaKeys = Json.arr .nil) ∧
      (∀ o ∈ out, o.id = s.nextId → o.formulaKeys = Json.arr .nil)) := by
  rw [saveProblem_valid req t a ht ha ht2 ha2 s]
  have hnewOut := problemRowOut_fromReq req t a s.nextId s.now
  constructor
  · refine ⟨problemRowFromReq req t a s.nextId s.now, by simp, rfl, ?_⟩
    simp [problemRowFromReq, stringifyCell, hfk]
  · have hallrows : ∀ r ∈ (s.rows ++ [problemRowFromReq req t a s.nextId s.now]),
        (problemRowOut r).isSome = true := by
      intro r hr
      rcases List.mem_append.mp hr with hr | hr
      · unfold wfProblems at hwf
        rw [List.all_eq_true] at hwf
        exact hwf r hr
      · simp only [List.mem_singleton] at hr
        rw [hr, hnewOut]
        rfl
    have hallsorted : ∀ r ∈ sortByTsDesc (s.rows ++ [problemRowFromReq req t a s.nextId s.now]),
        (problemRowOut r).isSome = true :=
      fun r hr => hallrows r ((mem_sortByTsDesc r _).mp hr)
    obtain ⟨out, hout, hmem1, hmem2⟩ := problemRowsOut_total _ hallsorted
    obtain ⟨o, homem, hoeq⟩ :=
      hmem2 (problemRowFromReq req t a s.nextId s.now) ((mem_sortByTsDesc _ _).mpr (by simp))
    rw [hnewOut] at hoeq
    simp only [Option.some.injEq] at hoeq
    have hofk : o.formulaKeys = Json.arr .nil := by
      rw [← hoeq]
      simp [cellRead, hfk]
    have hoid : o.id = s.nextId := by
      rw [← hoeq]
    refine ⟨out, ?_, ⟨o, homem, hoid, hofk⟩, ?_⟩
    · unfold getProblems
      exact hout
    · intro o2 ho2 hid2
      obtain ⟨r2, hr2mem, hr2eq⟩ := hmem1 o2 ho2
      have hr2id : r2.id = s.nextId := by
        rw [← problemRowOut_fields r2 o2 hr2eq]
        exact hid2
      rcases List.mem_append.mp ((mem_sortByTsDesc _ _).mp hr2mem) with h | h
      · exact absurd hr2id (by have := hid r2 h; omega)
      · simp only [List.mem_singleton] at h
        rw [h, hnewOut] at hr2eq
        simp only [Option.some.injEq] at hr2eq
        rw [← hr2eq]
        simp [cellRead, hfk]

theorem c6_witness :
    reqP1.formulaKeys = none ∧ wfProblems emptyProblems = true ∧
    ((∃ r, r ∈ (saveProblem reqP1 emptyProblems).2.rows ∧ r.id = emptyProblems.nextId ∧
        r.formulaKeys = none) ∧
     (∃ out, getProblems (saveProblem reqP1 emptyProblems).2 = some out ∧
       (∃ o, o ∈ out ∧ o.id = emptyProblems.nextId ∧ o.formulaKeys = Json.arr .nil) ∧
       (∀ o ∈ out, o.id = emptyProblems.nextId → o.formulaKeys = Json.arr .nil))) :=
  ⟨rfl, rfl,
   c6_formulaKeys_absent_roundtrip emptyProblems reqP1 "2+2?" "4" rfl rfl
     (by decide) (by decide) rfl rfl (by simp [emptyProblems])⟩

/-- C7: call-gemini with no credential anywhere — body apiKey and the
environment value both absent or empty — answers 400 with the missing-key
error and success false, and adds nothing to submitted_content, since
persistence is attempted only after a successful model call. -/
theorem c7_gemini_missing_key
    (cm : String → Option String → Option Json → Except String String)
    (dbFails : Bool) (req : GeminiReq) (envKey : Option String) (s : ContentState)
    (h1 : req.apiKey = none ∨ req.apiKey = some "")
    (h2 : envKey = none ∨ envKey = some "") :
    (callGemini cm dbFails req envKey s).1.status = 400 ∧
    (callGemini cm dbFails req envKey s).1.success = false ∧
    (callGemini cm dbFails req envKey s).1.error = some missingKeyMsg ∧
    (callGemini cm dbFails req envKey s).2 = s := by
  rw [callGemini_missing cm dbFails req envKey s ((truthyStr_false_iff _).mpr h1)
    ((truthyStr_false_iff _).mpr h2)]
  exact ⟨rfl, rfl, rfl, rfl⟩

theorem c7_witness :
    reqG0.apiKey = none ∧
    ((callGemini cmOk false reqG0 none emptyContent).1.status = 400 ∧
     (callGemini cmOk false reqG0 none emptyContent).1.success = false ∧
     (callGemini cmOk false reqG0 none emptyContent).1.error = some missingKeyMsg ∧
     (callGemini cmOk false reqG0 none emptyContent).2 = emptyContent) :=
  ⟨rfl, c7_gemini_missing_key cmOk false reqG0 none emptyContent (Or.inl rfl) (Or.inl rfl)⟩

/-- C8: when the upstream model call succeeds with text T, the response is
success 200 with data T whatever becomes of the subsequent insert into
submitted_content — the insert outcome never alters the response. -/
theorem c8_fire_and_forget
    (cm : String → Option String → Option Json → Except String String)
    (req : GeminiReq) (envKey : Option String) (s : ContentState) (k text : String)
    (hk : jsOr req.apiKey envKey = some k) (hk2 : k ≠ "")
    (hcm : cm k req.prompt req.schema = .ok text) :
    (∀ dbFails, (callGemini cm dbFails req envKey s).1 =
      { status := 200, success := true, error := none, data := some text }) ∧
    (callGemini cm true req envKey s).1 = (callGemini cm false req envKey s).1 := by
  have h := fun dbFails => callGemini_ok cm dbFails req envKey s k text hk hk2 hcm
  constructor
  · intro dbFails
    rw [h dbFails]
  · rw [h true, h false]

theorem c8_witness :
    jsOr reqG1.apiKey none = some "clientKey" ∧
    cmOk "clientKey" reqG1.prompt reqG1.schema = .ok "generated text" ∧
    ((∀ dbFails, (callGemini cmOk dbFails reqG1 none emptyContent).1 =
       { status := 200, success := true, error := none, data := some "generated text" }) ∧
     (callGemini cmOk true reqG1 none emptyContent).1 =
       (callGemini cmOk false reqG1 none emptyContent).1) :=
  ⟨by decide, rfl,
   c8_fire_and_forget cmOk reqG1 none emptyContent "clientKey" "generated text"
     (by decide) (by decide) rfl⟩

/-- C9: the handler prefers a truthy caller-supplied apiKey over the
environment credential — the environment value is then irrelevant — and the
missing-key 400 is returned exactly when both the body field and the
environment value are absent or empty. -/
theorem c9_client_key_preference
    (cm : String → Option String → Option Json → Except String String)
    (dbFails : Bool) (req : GeminiReq) (envKey : Option String) (s : ContentState) :
    (∀ k, req.apiKey = some k → k ≠ "" →
        callGemini cm dbFails req envKey s = geminiWithKey cm dbFails req k s) ∧
    ((callGemini cm dbFails req envKey s).1 = geminiKeyMissingResp ↔
        (truthyStr req.apiKey = false ∧ truthyStr envKey = false)) := by
  constructor
  · intro k hk hk2
    exact callGemini_usesBodyKey cm dbFails req envKey s k hk hk2
  · constructor
    · intro h
      by_cases ha : truthyStr req.apiKey = true
      · obtain ⟨k, hk, hk2⟩ := (truthyStr_true_iff _).mp ha
        rw [callGemini_usesBodyKey cm dbFails req envKey s k hk hk2] at h
        exact absurd h (geminiWithKey_ne_missing cm dbFails req k s)
      · have ha2 : truthyStr req.apiKey = false := by
          rw [Bool.not_eq_true] at ha
          exact ha
        by_cases hb : truthyStr envKey = true
        · obtain ⟨k, hk, hk2⟩ := (truthyStr_true_iff _).mp hb
          rw [callGemini_usesEnvKey cm dbFails req envKey s k ha2 hk hk2] at h
          exact absurd h (geminiWithKey_ne_missing cm dbFails req k s)
        · refine ⟨ha2, ?_⟩
          rw [Bool.not_eq_true] at hb
          exact hb
    · rintro ⟨ha, hb⟩
      rw [callGemini_missing cm dbFails req envKey s ha hb]

theorem c9_witness :
    reqG1.apiKey = some "clientKey" ∧
    callGemini cmOk false reqG1 (some "envKey") emptyContent =
      geminiWithKey cmOk false reqG1 "clientKey" emptyContent :=
  ⟨rfl, (c9_client_key_preference cmOk false reqG1 (some "envKey") emptyContent).1
    "clientKey" rfl (by decide)⟩

/-- C10: a valid save-formula call that omits verified_by_ai stores NULL in
that column — the DEFAULT FALSE never applies because both INSERT and UPDATE
bind the column explicitly — and get-formulas returns null, not false, for
it. -/
theorem c10_verified_by_ai_null (s : FormulasState) (req : SaveFormulaReq) (k f : String)
    (hk : req.key = some k) (hf : req.formula = some f) (hk2 : k ≠ "") (hf2 : f ≠ "")
    (hv : req.verified_by_ai = none)
    (huniq : (keyRows s k).length ≤ 1) (hwf : wfFormulas s = true) :
    (∃ i ts, keyRows (saveFormula req s).2 k = [rowFromReq req i k ts] ∧
       (rowFromReq req i k ts).verified_by_ai = SqlValue.null) ∧
    (∃ out, getFormulas (saveFormula req s).2 = some out ∧
       (∃ o, o ∈ out ∧ o.key = k ∧ o.verified_by_ai = SqlValue.null) ∧
       (∀ o ∈ out, o.key = k → o.verified_by_ai = SqlValue.null)) := by
  obtain ⟨i, out, o, hkr, hget, hoeq, homem, huniqo⟩ :=
    save_then_get req s k f hk hf hk2 hf2 huniq hwf
  have hnull : (rowFromReq req i k s.now).verified_by_ai = SqlValue.null := by
    simp [rowFromReq, bindBool, hv]
  rw [formulaRowOut_rowFromReq] at hoeq
  simp only [Option.some.injEq] at hoeq
  have hov : o.verified_by_ai = SqlValue.null := by
    rw [← hoeq]
    simp [bindBool, hv]
  have hkey : o.key = k := by
    rw [← hoeq]
  refine ⟨⟨i, s.now, hkr, hnull⟩, out, hget, ⟨o, homem, hkey, hov⟩, ?_⟩
  intro o2 ho2 hko2
  rw [huniqo o2 ho2 hko2]
  exact hov

theorem c10_witness :
    reqB.verified_by_ai = none ∧ wfFormulas emptyFormulas = true ∧
    ((∃ i ts, keyRows (saveFormula reqB emptyFormulas).2 "area" =
        [rowFromReq reqB i "area" ts] ∧
        (rowFromReq reqB i "area" ts).verified_by_ai = SqlValue.null) ∧
     (∃ out, getFormulas (saveFormula reqB emptyFormulas).2 = some out ∧
       (∃ o, o ∈ out ∧ o.key = "area" ∧ o.verified_by_ai = SqlValue.null) ∧
       (∀ o ∈ out, o.key = "area" → o.verified_by_ai = SqlValue.null))) :=
  ⟨rfl, rfl,
   c10_verified_by_ai_null emptyFormulas reqB "area" "S=a*b" rfl rfl
     (by decide) (by decide) rfl (by decide) rfl⟩

end FormulaHub
